import Mathlib

/-!
Verification of the screen/flow controller and step-sequencing state machine
of the gift repository (app.js, suitcase.js, progress.js).

JavaScript numbers that can be `NaN` (the result of `parseInt` on a
non-numeric string, propagated through `Math.min`/`Math.max` and `++`) are
modelled as `Option Int`, with `none` playing the role of `NaN`: every
comparison against `NaN` is false, and arithmetic on `NaN` yields `NaN`.
-/

/-- JS `a >= b` where `a` may be `NaN` (`none`): comparisons with `NaN` are false. -/
def jsGE (a : Option Int) (b : Int) : Bool :=
  match a with
  | none => false
  | some x => decide (b ≤ x)

/-- Module-level state of suitcase.js (`mapInitialised`), instrumented with two
history counters: `mapInitCount` counts executions of the guarded body of
`initMap`, and `visits2` counts executions of the `if (index === 2) initMap()`
branch of `showStep` (entries into the map step).  The counters record what
happened; they do not influence any branch. -/
structure PageState where
  mapInitialised : Bool
  mapInitCount : Nat
  visits2 : Nat
  deriving DecidableEq, Repr

/-- Module state at page load: `mapInitialised = false`, nothing has run. -/
def pageInit : PageState := ⟨false, 0, 0⟩

/-- suitcase.js `initMap`: `if (mapInitialised) return; mapInitialised = true;`
followed by the Leaflet setup (the side effect, counted by `mapInitCount`). -/
def initMap (p : PageState) : PageState :=
  if p.mapInitialised then p
  else { p with mapInitialised := true, mapInitCount := p.mapInitCount + 1 }

/-- One execution of the `if (index === 2) initMap()` branch of `showStep`. -/
def visitMapStep (p : PageState) : PageState :=
  initMap { p with visits2 := p.visits2 + 1 }

/-- Closure state of one `initSuitcase` run, together with the module-level
`PageState`.  `displayed` is the index last rendered by a non-suppressed
`showStep` call: the DOM classes of the step slides, the dots and the tap
hint are each a pure function of it (suitcase.js lines 159-183 set them
unconditionally from `index` on every non-suppressed run). -/
structure StoryState where
  totalSteps : Nat
  currentStep : Option Int
  transitioning : Bool
  displayed : Option Int
  page : PageState
  deriving DecidableEq, Repr

/-- suitcase.js line 152: `Math.min(Math.max(startAt, 0), totalSteps - 1)`,
with `NaN` passing through both `Math.max` and `Math.min` unchanged. -/
def clampStep (startAt : Option Int) (total : Nat) : Option Int :=
  startAt.map (fun x => min (max x 0) ((total : Int) - 1))

/-- suitcase.js `showStep(index, animate)`: early-return when a transition is
in flight and `animate` is set; otherwise raise the `transitioning` flag (when
animating), render `index` (slides, dots, tap hint), and run the map-step
branch when `index === 2`. -/
def showStep (index : Option Int) (animate : Bool) (s : StoryState) : StoryState :=
  if animate && s.transitioning then s
  else
    { s with
      transitioning := animate || s.transitioning,
      displayed := index,
      page := if index = some 2 then visitMapStep s.page else s.page }

/-- suitcase.js lines 200-205, the click handler on `#screen-suitcase`:
return if the target is the gift button, return if
`currentStep >= totalSteps - 1`, else `currentStep++` then
`showStep(currentStep, true)`. -/
def tap (giftTarget : Bool) (s : StoryState) : StoryState :=
  if giftTarget then s
  else if jsGE s.currentStep ((s.totalSteps : Int) - 1) then s
  else
    let s' := { s with currentStep := s.currentStep.map (· + 1) }
    showStep s'.currentStep true s'

/-- The 580ms timeout of suitcase.js line 191 firing: `transitioning = false`. -/
def endTransition (s : StoryState) : StoryState :=
  { s with transitioning := false }

/-- suitcase.js `initSuitcase(startAt = 0)`: clamp the start index, create the
closure state, and `showStep(currentStep, false)`.  `total` is the number of
`.suitcase-step` elements found in the DOM. -/
def initSuitcase (total : Nat) (startAt : Option Int) (page : PageState) : StoryState :=
  let c := clampStep startAt total
  showStep c false
    { totalSteps := total, currentStep := c, transitioning := false,
      displayed := none, page := page }

/-- Events of one `initSuitcase` run: a tap/click on the story screen (with
whether the target is inside the gift button), and the 580ms transition
timeout firing. -/
inductive Ev
  | tap (giftTarget : Bool)
  | endT
  deriving DecidableEq, Repr

/-- Single-threaded dispatch of one event. -/
def stepEv (s : StoryState) (e : Ev) : StoryState :=
  match e with
  | .tap g => tap g s
  | .endT => endTransition s

/-- Run a sequence of events from a state. -/
def run (s : StoryState) (evs : List Ev) : StoryState :=
  evs.foldl stepEv s

/-- Session-level events: additionally `reinit`, a further call to
`initSuitcase` in the same page session (the error-screen button calls
`initSuitcase()`, i.e. start index 0; a deep link passes a parsed index).
The module-level `PageState` persists across such calls. -/
inductive SessEv
  | tap (giftTarget : Bool)
  | endT
  | reinit (startAt : Option Int)
  deriving DecidableEq, Repr

/-- Session-level dispatch. -/
def sessStep (s : StoryState) (e : SessEv) : StoryState :=
  match e with
  | .tap g => tap g s
  | .endT => endTransition s
  | .reinit a => initSuitcase s.totalSteps a s.page

/-- A whole page session: `initSuitcase` on a fresh module state, then events. -/
def sessRun (total : Nat) (startAt : Option Int) (evs : List SessEv) : StoryState :=
  evs.foldl sessStep (initSuitcase total startAt pageInit)

/-- `true` when the (possibly `NaN`) index lies in `[0, total - 1]`. -/
def inRangeB (c : Option Int) (total : Nat) : Bool :=
  match c with
  | some x => decide (0 ≤ x ∧ x ≤ (total : Int) - 1)
  | none => false

/-- Step-index comparison between two states; false if either is `NaN`. -/
def curLeB (a b : StoryState) : Bool :=
  match a.currentStep, b.currentStep with
  | some x, some y => decide (x ≤ y)
  | _, _ => false

/-- Whether some step slide currently carries the `active` class: exactly when
the last rendered index names one of the `totalSteps` slides. -/
def hasActiveStep (s : StoryState) : Bool :=
  match s.displayed with
  | some d => decide (0 ≤ d ∧ d < (s.totalSteps : Int))
  | none => false

/-- Claim C1: taps arriving while a transition is in flight are supposed to be
ignored, the step index advancing by exactly one per transition with no steps
skipped.  The code violates this: the click handler increments `currentStep`
before `showStep` consults the `transitioning` flag, so a second tap 100ms
into the first transition raises `currentStep` to 2 while the display still
shows step 1; after the timeout a third tap renders step 3, skipping step 2
entirely — and with it the map-step branch, so the map is never initialised. -/
theorem C1_mid_transition_tap_advances_index :
    (run (initSuitcase 4 (some 0) pageInit) [.tap false, .tap false]).transitioning = true ∧
    (run (initSuitcase 4 (some 0) pageInit) [.tap false, .tap false]).currentStep = some 2 ∧
    (run (initSuitcase 4 (some 0) pageInit) [.tap false, .tap false]).displayed = some 1 ∧
    (run (initSuitcase 4 (some 0) pageInit)
        [.tap false, .tap false, .endT, .tap false]).displayed = some 3 ∧
    (run (initSuitcase 4 (some 0) pageInit)
        [.tap false, .tap false, .endT, .tap false]).page.mapInitCount = 0 := by
  decide

/-- Claim C9: tapping the story container when the current step index is the
last one (`currentStep >= totalSteps - 1`) returns before any mutation, so the
whole state — step index, rendered visuals, dots, tap hint, map flag — is
unchanged. -/
theorem C9_terminal_tap_noop (s : StoryState) (g : Bool) (c : Int)
    (hc : s.currentStep = some c) (hlast : (s.totalSteps : Int) - 1 ≤ c) :
    tap g s = s := by
  unfold tap
  rcases g with _ | _
  · simp only [Bool.false_eq_true, if_false]
    have : jsGE s.currentStep ((s.totalSteps : Int) - 1) = true := by
      rw [hc]; simpa [jsGE] using hlast
    rw [this]
    simp
  · simp

theorem C9_terminal_tap_noop_witness :
    tap false (initSuitcase 4 (some 3) pageInit) = initSuitcase 4 (some 3) pageInit :=
  C9_terminal_tap_noop (initSuitcase 4 (some 3) pageInit) false 3 (by decide) (by decide)

/-- Claim C10: the map-initialisation branch of `showStep` runs only when the
rendered index is exactly 2, so `initSuitcase` with a valid start index
strictly greater than 2 leaves the module map state untouched. -/
theorem C10_deep_link_past_map_skips_init :
    (∀ (i : Option Int) (b : Bool) (s : StoryState), i ≠ some 2 →
      (showStep i b s).page = s.page) ∧
    (∀ (total : Nat) (startAt : Int) (page : PageState),
      2 < startAt → startAt ≤ (total : Int) - 1 →
      (initSuitcase total (some startAt) page).page = page) := by
  constructor
  · intro i b s hi
    unfold showStep
    split
    · rfl
    · simp [hi]
  · intro total startAt page h2 hle
    have hclamp : clampStep (some startAt) total = some startAt := by
      show some (min (max startAt 0) ((total : Int) - 1)) = some startAt
      rw [max_eq_left (by omega), min_eq_left hle]
    have hne : (some startAt : Option Int) ≠ some 2 := by
      intro h
      have h' : startAt = 2 := by injection h
      omega
    unfold initSuitcase
    rw [hclamp]
    simp [showStep, hne]

theorem C10_deep_link_past_map_skips_init_witness :
    (showStep (some 3) true (initSuitcase 4 (some 0) pageInit)).page
        = (initSuitcase 4 (some 0) pageInit).page ∧
    (initSuitcase 4 (some 3) pageInit).page = pageInit :=
  ⟨C10_deep_link_past_map_skips_init.1 (some 3) true (initSuitcase 4 (some 0) pageInit)
      (by decide),
   C10_deep_link_past_map_skips_init.2 4 3 pageInit (by decide) (by decide)⟩

lemma showStep_currentStep (i : Option Int) (b : Bool) (s : StoryState) :
    (showStep i b s).currentStep = s.currentStep := by
  unfold showStep
  split <;> rfl

lemma showStep_totalSteps (i : Option Int) (b : Bool) (s : StoryState) :
    (showStep i b s).totalSteps = s.totalSteps := by
  unfold showStep
  split <;> rfl

lemma stepEv_totalSteps (s : StoryState) (e : Ev) :
    (stepEv s e).totalSteps = s.totalSteps := by
  cases e with
  | tap g =>
    show (tap g s).totalSteps = s.totalSteps
    unfold tap
    split
    · rfl
    · split
      · rfl
      · rw [showStep_totalSteps]
  | endT => rfl

/-- Effect of a tap on the step index: either preserved or, below the last
step, incremented by one. -/
lemma tap_currentStep (g : Bool) (s : StoryState) :
    (tap g s).currentStep = s.currentStep ∨
    (∃ c, s.currentStep = some c ∧ c < (s.totalSteps : Int) - 1 ∧
      (tap g s).currentStep = some (c + 1)) := by
  unfold tap
  split
  · exact Or.inl rfl
  · split
    · exact Or.inl rfl
    · rename_i hg
      rw [showStep_currentStep]
      cases hc : s.currentStep with
      | none => exact Or.inl rfl
      | some c =>
        refine Or.inr ⟨c, rfl, ?_, rfl⟩
        rw [hc] at hg
        simp only [jsGE, decide_eq_true_eq] at hg
        omega

/-- Per-event effect on the step index: every event either preserves
`currentStep` or, below the last step, increments it by one. -/
lemma stepEv_currentStep (s : StoryState) (e : Ev) :
    (stepEv s e).currentStep = s.currentStep ∨
    (∃ c, s.currentStep = some c ∧ c < (s.totalSteps : Int) - 1 ∧
      (stepEv s e).currentStep = some (c + 1)) := by
  cases e with
  | tap g => exact tap_currentStep g s
  | endT => exact Or.inl rfl

/-- The step-index invariant: `currentStep` is a real number (not `NaN`)
lying in `[0, totalSteps - 1]`. -/
def StoryInv (s : StoryState) : Prop :=
  ∃ c, s.currentStep = some c ∧ 0 ≤ c ∧ c ≤ (s.totalSteps : Int) - 1

lemma storyInv_step (s : StoryState) (e : Ev) (h : StoryInv s) :
    StoryInv (stepEv s e) := by
  obtain ⟨c, hc, h0, h1⟩ := h
  rcases stepEv_currentStep s e with heq | ⟨c', hc', hlt, hnew⟩
  · exact ⟨c, by rw [heq, hc], h0, by rw [stepEv_totalSteps]; exact h1⟩
  · refine ⟨c' + 1, hnew, ?_, ?_⟩
    · rw [hc] at hc'
      injection hc' with h'
      omega
    · rw [stepEv_totalSteps]
      omega

lemma storyInv_run (s : StoryState) (evs : List Ev) (h : StoryInv s) :
    StoryInv (run s evs) := by
  induction evs generalizing s with
  | nil => exact h
  | cons e rest ih => exact ih (stepEv s e) (storyInv_step s e h)

lemma run_totalSteps (s : StoryState) (evs : List Ev) :
    (run s evs).totalSteps = s.totalSteps := by
  induction evs generalizing s with
  | nil => rfl
  | cons e rest ih => rw [run, List.foldl_cons, ← run, ih, stepEv_totalSteps]

lemma clampStep_of_valid (total : Nat) (startAt : Int)
    (h0 : 0 ≤ startAt) (h1 : startAt ≤ (total : Int) - 1) :
    clampStep (some startAt) total = some startAt := by
  show some (min (max startAt 0) ((total : Int) - 1)) = some startAt
  rw [max_eq_left h0, min_eq_left h1]

lemma initSuitcase_currentStep (total : Nat) (startAt : Option Int) (page : PageState) :
    (initSuitcase total startAt page).currentStep = clampStep startAt total := by
  unfold initSuitcase
  rw [showStep_currentStep]

lemma initSuitcase_totalSteps (total : Nat) (startAt : Option Int) (page : PageState) :
    (initSuitcase total startAt page).totalSteps = total := by
  unfold initSuitcase
  rw [showStep_totalSteps]

/-- Claim C4: after `initSuitcase` with a valid start index, the step index is
always a real number in `[0, totalSteps - 1]`, and across every further event
it never decreases (the only assignment other than the increment is the
deep-link initialisation itself). -/
theorem C4_index_in_range_and_monotone (total : Nat) (startAt : Int)
    (page : PageState) (evs : List Ev)
    (h0 : 0 ≤ startAt) (h1 : startAt ≤ (total : Int) - 1) :
    inRangeB (run (initSuitcase total (some startAt) page) evs).currentStep total = true ∧
    ∀ e, curLeB (run (initSuitcase total (some startAt) page) evs)
      (run (initSuitcase total (some startAt) page) (evs ++ [e])) = true := by
  have hinv0 : StoryInv (initSuitcase total (some startAt) page) := by
    refine ⟨startAt, ?_, h0, ?_⟩
    · rw [initSuitcase_currentStep, clampStep_of_valid total startAt h0 h1]
    · rw [initSuitcase_totalSteps]
      exact h1
  have hinv := storyInv_run _ evs hinv0
  obtain ⟨c, hc, hc0, hc1⟩ := hinv
  have htot : (run (initSuitcase total (some startAt) page) evs).totalSteps = total := by
    rw [run_totalSteps, initSuitcase_totalSteps]
  rw [htot] at hc1
  constructor
  · rw [hc]
    simp only [inRangeB, decide_eq_true_eq]
    exact ⟨hc0, hc1⟩
  · intro e
    have happ : run (initSuitcase total (some startAt) page) (evs ++ [e])
        = stepEv (run (initSuitcase total (some startAt) page) evs) e := by
      unfold run
      rw [List.foldl_append]
      rfl
    rw [happ]
    rcases stepEv_currentStep (run (initSuitcase total (some startAt) page) evs) e with
      heq | ⟨c', hc', _, hnew⟩
    · unfold curLeB
      rw [heq, hc]
      simp
    · unfold curLeB
      rw [hc, hnew]
      rw [hc] at hc'
      injection hc' with h'
      subst h'
      simp only [decide_eq_true_eq]
      omega

theorem C4_index_in_range_and_monotone_witness :
    inRangeB (run (initSuitcase 4 (some 0) pageInit) [Ev.tap false]).currentStep 4 = true ∧
    curLeB (run (initSuitcase 4 (some 0) pageInit) [Ev.tap false])
      (run (initSuitcase 4 (some 0) pageInit) ([Ev.tap false] ++ [Ev.endT])) = true :=
  ⟨(C4_index_in_range_and_monotone 4 0 pageInit [Ev.tap false] (by decide) (by decide)).1,
   (C4_index_in_range_and_monotone 4 0 pageInit [Ev.tap false] (by decide) (by decide)).2 Ev.endT⟩

/-- Map-subsystem invariant: the `mapInitialised` flag records whether the map
step was ever entered, and the Leaflet setup has run `min visits 1` times. -/
def PageInv (p : PageState) : Prop :=
  p.mapInitialised = decide (1 ≤ p.visits2) ∧ p.mapInitCount = min p.visits2 1

lemma pageInv_visitMapStep (p : PageState) (h : PageInv p) : PageInv (visitMapStep p) := by
  obtain ⟨h1, h2⟩ := h
  by_cases hm : p.mapInitialised = true
  · have hv : 1 ≤ p.visits2 := by
      rw [hm] at h1
      exact of_decide_eq_true h1.symm
    unfold visitMapStep initMap
    simp only [hm, if_true]
    refine ⟨by simp, ?_⟩
    simp only [h2]
    omega
  · have hm' : p.mapInitialised = false := by
      cases hb : p.mapInitialised
      · rfl
      · exact absurd hb hm
    have hv : p.visits2 = 0 := by
      rw [hm'] at h1
      by_contra hne
      have : decide (1 ≤ p.visits2) = true := by
        simp only [decide_eq_true_eq]
        omega
      rw [this] at h1
      exact Bool.false_ne_true h1
    unfold visitMapStep initMap
    simp only [hm', if_false, Bool.false_eq_true]
    refine ⟨by simp [hv], ?_⟩
    simp only [h2, hv]
    omega

lemma pageInv_showStep (i : Option Int) (b : Bool) (s : StoryState)
    (h : PageInv s.page) : PageInv (showStep i b s).page := by
  unfold showStep
  split
  · exact h
  · simp only
    split
    · exact pageInv_visitMapStep s.page h
    · exact h

lemma pageInv_tap (g : Bool) (s : StoryState) (h : PageInv s.page) :
    PageInv (tap g s).page := by
  unfold tap
  split
  · exact h
  · split
    · exact h
    · exact pageInv_showStep _ _ _ h

lemma pageInv_initSuitcase (total : Nat) (a : Option Int) (p : PageState)
    (h : PageInv p) : PageInv (initSuitcase total a p).page := by
  unfold initSuitcase
  exact pageInv_showStep _ _ _ h

lemma pageInv_sessStep (s : StoryState) (e : SessEv) (h : PageInv s.page) :
    PageInv (sessStep s e).page := by
  cases e with
  | tap g => exact pageInv_tap g s h
  | endT => exact h
  | reinit a => exact pageInv_initSuitcase s.totalSteps a s.page h

lemma pageInv_sessRun (total : Nat) (startAt : Option Int) (evs : List SessEv) :
    PageInv (sessRun total startAt evs).page := by
  have h0 : PageInv (initSuitcase total startAt pageInit).page :=
    pageInv_initSuitcase total startAt pageInit (by constructor <;> decide)
  unfold sessRun
  generalize initSuitcase total startAt pageInit = s0 at h0 ⊢
  induction evs generalizing s0 with
  | nil => exact h0
  | cons e rest ih => exact ih (sessStep s0 e) (pageInv_sessStep s0 e h0)

/-- Claim C5: over a whole page session — an `initSuitcase` call followed by
any mix of taps, transition timeouts and further `initSuitcase` calls — the
Leaflet setup body runs at most once, and exactly once as soon as the map
step (index 2) has been entered at least once. -/
theorem C5_map_init_exactly_once (total : Nat) (startAt : Option Int)
    (evs : List SessEv) :
    (sessRun total startAt evs).page.mapInitCount ≤ 1 ∧
    (1 ≤ (sessRun total startAt evs).page.visits2 →
      (sessRun total startAt evs).page.mapInitCount = 1) := by
  obtain ⟨h1, h2⟩ := pageInv_sessRun total startAt evs
  constructor
  · rw [h2]
    omega
  · intro hv
    rw [h2]
    omega

theorem C5_map_init_exactly_once_witness :
    1 ≤ (sessRun 4 (some 2) [SessEv.reinit (some 2)]).page.visits2 ∧
    (sessRun 4 (some 2) [SessEv.reinit (some 2)]).page.mapInitCount = 1 :=
  ⟨by decide, (C5_map_init_exactly_once 4 (some 2) [SessEv.reinit (some 2)]).2 (by decide)⟩

/-- The four top-level screens of app.js's `screens` object (this build of the
flow controller has no video screen entry). -/
inductive ScreenName
  | progress
  | error
  | suitcase
  | model
  deriving DecidableEq, Repr

/-- The `active` class of each screen's container element. -/
structure ScreenActive where
  progress : Bool
  error : Bool
  suitcase : Bool
  model : Bool
  deriving DecidableEq, Repr

/-- `classList.add('active')` / `classList.remove('active')` on one screen. -/
def setClass (a : ScreenActive) (k : ScreenName) (v : Bool) : ScreenActive :=
  match k with
  | .progress => { a with progress := v }
  | .error => { a with error := v }
  | .suitcase => { a with suitcase := v }
  | .model => { a with model := v }

/-- Iteration order of `Object.entries(screens)`. -/
def screenEntries : List ScreenName :=
  [.progress, .error, .suitcase, .model]

/-- app.js `showScreen(name)` on the class level: for every entry, add
`active` when the key matches, remove it otherwise. -/
def showScreenClasses (name : ScreenName) (a : ScreenActive) : ScreenActive :=
  screenEntries.foldl (fun acc k => setClass acc k (k == name)) a

/-- The class assignment in which exactly the named screen is active. -/
def activeOnly (name : ScreenName) : ScreenActive :=
  ⟨name == .progress, name == .error, name == .suitcase, name == .model⟩

/-- Number of screens currently bearing the `active` class. -/
def countActive (a : ScreenActive) : Nat :=
  (if a.progress then 1 else 0) + (if a.error then 1 else 0) +
    (if a.suitcase then 1 else 0) + (if a.model then 1 else 0)

/-- Digits of a decimal numeral, most significant first. -/
def digitsVal (cs : List Char) : Nat :=
  cs.foldl (fun a c => a * 10 + (c.toNat - 48)) 0

/-- Maximal digit prefix; `none` when it is empty. -/
def parseDigitsPrefix (cs : List Char) : Option Nat :=
  match cs.takeWhile Char.isDigit with
  | [] => none
  | ds => some (digitsVal ds)

/-- JS `parseInt(s, 10)`: skip leading whitespace, optional sign, then the
maximal digit prefix; `NaN` (`none`) when no digit follows. -/
def jsParseInt (s : String) : Option Int :=
  let cs := s.data.dropWhile Char.isWhitespace
  match cs with
  | '-' :: rest => (parseDigitsPrefix rest).map (fun n => -(n : Int))
  | '+' :: rest => (parseDigitsPrefix rest).map (fun n => (n : Int))
  | _ => (parseDigitsPrefix cs).map (fun n => (n : Int))

/-- Key lookup in the `screens` object: only the four declared keys hit an
element (an unrecognised or prototype key leads to the default flow either
way, via the falsy guard or via the `switch` default). -/
def screenKey (s : String) : Option ScreenName :=
  if s = "progress" then some ScreenName.progress
  else if s = "error" then some ScreenName.error
  else if s = "suitcase" then some ScreenName.suitcase
  else if s = "model" then some ScreenName.model
  else none

/-- Modelled from the spec: the story markup (index.html, not under src/) has
four `.suitcase-step` slides — app.js documents the step deep link as
`?screen=suitcase&step=2  — jump to a specific suitcase step (0-3)` and the
spec places the map step at index 2 of the default configuration. -/
def NSTEPS : Nat := 4

/-- Whole-app state: the screens' `active` classes, the story closure (once
`initSuitcase` has run), and history flags recording that `startFlow` /
`runProgress` / `initModelViewer` were invoked. -/
structure AppState where
  active : ScreenActive
  story : Option StoryState
  flowRan : Bool
  progressRan : Bool
  modelViewerRan : Bool
  deriving DecidableEq, Repr

/-- app.js `showScreen(name)`. -/
def showScreen (name : ScreenName) (s : AppState) : AppState :=
  { s with active := showScreenClasses name s.active }

/-- The suitcase module's page-level state (untouched before `initSuitcase`). -/
def pageOf (s : AppState) : PageState :=
  match s.story with
  | some st => st.page
  | none => pageInit

/-- Synchronous prefix of app.js `startFlow`: show the progress screen and
invoke `runProgress`; the error-screen continuation after the awaited promise
is the separate `flowDone` event. -/
def startFlow (s : AppState) : AppState :=
  let s' := showScreen .progress s
  { s' with flowRan := true, progressRan := true }

/-- app.js `jumpTo(name)`: `showScreen(name)` then the per-screen `switch`;
`progress` is a key of `screens` but has no `case`, so it falls to the
default branch and runs the normal flow. -/
def jumpTo (name : ScreenName) (qstep : Option String) (s : AppState) : AppState :=
  let s' := showScreen name s
  match name with
  | .error => s'
  | .suitcase =>
      { s' with story := some (initSuitcase NSTEPS
          (match qstep with
           | some t => jsParseInt t
           | none => some 0) (pageOf s')) }
  | .model => { s' with modelViewerRan := true }
  | .progress => startFlow s'

/-- app.js `init()` from a given initial class assignment `dom0` and the two
query parameters: `if (skipTo && screens[skipTo]) jumpTo(skipTo) else
startFlow()` (an absent or empty `screen` parameter is falsy). -/
def appInit (dom0 : ScreenActive) (qscreen qstep : Option String) : AppState :=
  let s0 : AppState := ⟨dom0, none, false, false, false⟩
  match qscreen with
  | none => startFlow s0
  | some str =>
      if str = "" then startFlow s0
      else
        match screenKey str with
        | some n => jumpTo n qstep s0
        | none => startFlow s0

/-- Events after load: the progress sequence resolving (the error-screen
continuation of `startFlow`), the two wired buttons, and the suitcase
events. -/
inductive AppEv
  | flowDone
  | btnNextSteps
  | btnShowGift
  | storyTap (giftTarget : Bool)
  | storyEndT
  deriving DecidableEq, Repr

/-- Single-threaded dispatch of one app-level event. -/
def appStep (s : AppState) (e : AppEv) : AppState :=
  match e with
  | .flowDone => if s.progressRan then showScreen .error s else s
  | .btnNextSteps =>
      let s' := showScreen .suitcase s
      { s' with story := some (initSuitcase NSTEPS (some 0) (pageOf s')) }
  | .btnShowGift =>
      let s' := showScreen .model s
      { s' with modelViewerRan := true }
  | .storyTap g => { s with story := s.story.map (tap g) }
  | .storyEndT => { s with story := s.story.map endTransition }

/-- A whole app run: load with the given query parameters, then events. -/
def appRun (dom0 : ScreenActive) (qscreen qstep : Option String)
    (evs : List AppEv) : AppState :=
  evs.foldl appStep (appInit dom0 qscreen qstep)

/-- Modelled from the spec: at document load the progress screen is the single
screen bearing the `active` class (spec: initial state `progress`; exactly one
Screen active at a time).  The markup itself is not under src/. -/
def domInit : ScreenActive := ⟨true, false, false, false⟩

lemma showScreenClasses_eq (name : ScreenName) (a : ScreenActive) :
    showScreenClasses name a = activeOnly name := by
  cases name <;> rfl

lemma countActive_activeOnly (name : ScreenName) :
    countActive (activeOnly name) = 1 := by
  cases name <;> rfl

lemma startFlow_active (s : AppState) :
    (startFlow s).active = activeOnly ScreenName.progress := by
  unfold startFlow showScreen
  rw [showScreenClasses_eq]

lemma jumpTo_active (name : ScreenName) (qstep : Option String) (s : AppState) :
    ∃ n, (jumpTo name qstep s).active = activeOnly n := by
  cases name with
  | progress =>
      exact ⟨ScreenName.progress, startFlow_active _⟩
  | error =>
      exact ⟨ScreenName.error, by unfold jumpTo showScreen; rw [showScreenClasses_eq]⟩
  | suitcase =>
      exact ⟨ScreenName.suitcase, by unfold jumpTo showScreen; rw [showScreenClasses_eq]⟩
  | model =>
      exact ⟨ScreenName.model, by unfold jumpTo showScreen; rw [showScreenClasses_eq]⟩

lemma appInit_active (dom0 : ScreenActive) (qscreen qstep : Option String) :
    ∃ n, (appInit dom0 qscreen qstep).active = activeOnly n := by
  unfold appInit
  cases qscreen with
  | none => exact ⟨ScreenName.progress, startFlow_active _⟩
  | some str =>
      by_cases h : str = ""
      · simp only [h, if_true]
        exact ⟨ScreenName.progress, startFlow_active _⟩
      · simp only [h, if_false]
        cases hk : screenKey str with
        | none => exact ⟨ScreenName.progress, startFlow_active _⟩
        | some n => exact jumpTo_active n qstep _

lemma appStep_active (s : AppState) (e : AppEv)
    (h : ∃ n, s.active = activeOnly n) :
    ∃ n, (appStep s e).active = activeOnly n := by
  cases e with
  | flowDone =>
      show ∃ n, (if s.progressRan then showScreen .error s else s).active = activeOnly n
      cases hp : s.progressRan
      · simp only [hp, Bool.false_eq_true, if_false]
        exact h
      · refine ⟨ScreenName.error, ?_⟩
        simp only [hp, if_true]
        unfold showScreen
        rw [showScreenClasses_eq]
  | btnNextSteps =>
      refine ⟨ScreenName.suitcase, ?_⟩
      show (showScreen ScreenName.suitcase s).active = activeOnly ScreenName.suitcase
      unfold showScreen
      rw [showScreenClasses_eq]
  | btnShowGift =>
      refine ⟨ScreenName.model, ?_⟩
      show (showScreen ScreenName.model s).active = activeOnly ScreenName.model
      unfold showScreen
      rw [showScreenClasses_eq]
  | storyTap g => exact h
  | storyEndT => exact h

/-- Claim C8: `showScreen(name)` activates exactly the named screen and
deactivates all others; after load at most one screen (in fact exactly one)
bears the `active` class at every point, whatever the query parameters and
event sequence; and the story events — the only ones handled outside the flow
controller — never change which screen is active. -/
theorem C8_single_active_screen :
    (∀ (s : AppState) (n : ScreenName), (showScreen n s).active = activeOnly n) ∧
    (∀ (dom0 : ScreenActive) (qscreen qstep : Option String) (evs : List AppEv),
      countActive (appRun dom0 qscreen qstep evs).active = 1) ∧
    (∀ (s : AppState) (g : Bool),
      (appStep s (.storyTap g)).active = s.active ∧
      (appStep s .storyEndT).active = s.active) := by
  refine ⟨?_, ?_, ?_⟩
  · intro s n
    unfold showScreen
    rw [showScreenClasses_eq]
  · intro dom0 qscreen qstep evs
    have h : ∃ n, (appRun dom0 qscreen qstep evs).active = activeOnly n := by
      unfold appRun
      have h0 := appInit_active dom0 qscreen qstep
      generalize appInit dom0 qscreen qstep = s0 at h0 ⊢
      induction evs generalizing s0 with
      | nil => exact h0
      | cons e rest ih => exact ih (appStep s0 e) (appStep_active s0 e h0)
    obtain ⟨n, hn⟩ := h
    rw [hn, countActive_activeOnly]
  · intro s g
    exact ⟨rfl, rfl⟩

/-- Claim C2 as stated is false: the flow controller's recognised identifier
for the story screen is `suitcase`, so the literal query `screen=story&step=2`
is unrecognised — the default progress flow starts, the progress screen (not
the story screen) is active, and `initSuitcase` is never called. -/
theorem C2_screen_story_runs_default_flow :
    (appRun domInit (some "story") (some "2") []).flowRan = true ∧
    (appRun domInit (some "story") (some "2") []).active
        = activeOnly ScreenName.progress ∧
    (appRun domInit (some "story") (some "2") []).story = none := by
  decide

lemma appStep_flowRan (s : AppState) (e : AppEv) :
    (appStep s e).flowRan = s.flowRan := by
  cases e with
  | flowDone =>
      show (if s.progressRan then showScreen .error s else s).flowRan = s.flowRan
      split <;> rfl
  | btnNextSteps => rfl
  | btnShowGift => rfl
  | storyTap g => rfl
  | storyEndT => rfl

/-- Claim C2, amended to the identifier the code actually recognises: loading
with `screen=suitcase&step=2` shows the story (suitcase) screen with step
index 2 active and rendered, runs the map initialisation once, and never
invokes the default progress/error flow — neither at load nor under any later
events. -/
theorem C2_deep_link_suitcase_step2 :
    (appRun domInit (some "suitcase") (some "2") []).active
        = activeOnly ScreenName.suitcase ∧
    ((appRun domInit (some "suitcase") (some "2") []).story.map
        (fun st => st.currentStep)) = some (some 2) ∧
    ((appRun domInit (some "suitcase") (some "2") []).story.map
        (fun st => st.displayed)) = some (some 2) ∧
    ((appRun domInit (some "suitcase") (some "2") []).story.map
        (fun st => st.page.mapInitCount)) = some 1 ∧
    (appRun domInit (some "suitcase") (some "2") []).flowRan = false ∧
    ∀ evs, (appRun domInit (some "suitcase") (some "2") evs).flowRan = false := by
  refine ⟨by decide, by decide, by decide, by decide, by decide, ?_⟩
  intro evs
  unfold appRun
  have h0 : (appInit domInit (some "suitcase") (some "2")).flowRan = false := by decide
  generalize appInit domInit (some "suitcase") (some "2") = s0 at h0 ⊢
  induction evs generalizing s0 with
  | nil => exact h0
  | cons e rest ih => exact ih (appStep s0 e) ((appStep_flowRan s0 e).trans h0)

/-- Claim C3 as stated is false: a non-numeric step parameter such as
`step=abc` parses to `NaN`, which passes through the `Math.min`/`Math.max`
clamp unchanged, so the start index is not in `[0, totalSteps-1]` and no step
slide (and no dot) is displayed as active. -/
theorem C3_non_numeric_step_leaves_no_active_step :
    ((appRun domInit (some "suitcase") (some "abc") []).story.map
        (fun st => inRangeB st.currentStep st.totalSteps)) = some false ∧
    ((appRun domInit (some "suitcase") (some "abc") []).story.map
        hasActiveStep) = some false := by
  decide

lemma showStep_displayed_false (i : Option Int) (s : StoryState) :
    (showStep i false s).displayed = i := by
  unfold showStep
  simp

lemma initSuitcase_displayed (total : Nat) (startAt : Option Int) (page : PageState) :
    (initSuitcase total startAt page).displayed = clampStep startAt total := by
  unfold initSuitcase
  rw [showStep_displayed_false]

lemma inRangeB_clampStep (k : Int) (total : Nat) (h : 1 ≤ total) :
    inRangeB (clampStep (some k) total) total = true := by
  show inRangeB (some (min (max k 0) ((total : Int) - 1))) total = true
  simp only [inRangeB, decide_eq_true_eq]
  omega

/-- Claim C3, amended: for every step parameter that `parseInt` reads as a
number, `initSuitcase` clamps the start index into `[0, totalSteps-1]` and
displays that step as active; a non-numeric parameter yields `NaN`, which
survives the clamp, and then no step is displayed as active (nothing is
surfaced as an error, but the "some step is always active" recovery fails). -/
theorem C3_numeric_step_clamped_and_displayed (t : String) (k : Int)
    (h : jsParseInt t = some k) :
    ((appRun domInit (some "suitcase") (some t) []).story.map
        (fun st => inRangeB st.currentStep st.totalSteps)) = some true ∧
    ((appRun domInit (some "suitcase") (some t) []).story.map
        hasActiveStep) = some true := by
  have hstory : (appRun domInit (some "suitcase") (some t) []).story
      = some (initSuitcase NSTEPS (jsParseInt t) pageInit) := rfl
  rw [hstory, h]
  constructor
  · show some (inRangeB (initSuitcase NSTEPS (some k) pageInit).currentStep
        (initSuitcase NSTEPS (some k) pageInit).totalSteps) = some true
    rw [initSuitcase_currentStep, initSuitcase_totalSteps]
    rw [inRangeB_clampStep k NSTEPS (by decide)]
  · show some (hasActiveStep (initSuitcase NSTEPS (some k) pageInit)) = some true
    have hd := initSuitcase_displayed NSTEPS (some k) pageInit
    have ht := initSuitcase_totalSteps NSTEPS (some k) pageInit
    unfold hasActiveStep
    rw [hd, ht]
    show some (decide (0 ≤ min (max k 0) ((NSTEPS : Int) - 1) ∧
        min (max k 0) ((NSTEPS : Int) - 1) < (NSTEPS : Int))) = some true
    have : (0 ≤ min (max k 0) ((NSTEPS : Int) - 1) ∧
        min (max k 0) ((NSTEPS : Int) - 1) < (NSTEPS : Int)) := by
      constructor <;> · show _
                        unfold NSTEPS
                        omega
    rw [decide_eq_true this]

theorem C3_numeric_step_clamped_and_displayed_witness :
    jsParseInt "7" = some 7 ∧
    ((appRun domInit (some "suitcase") (some "7") []).story.map
        (fun st => inRangeB st.currentStep st.totalSteps)) = some true ∧
    ((appRun domInit (some "suitcase") (some "7") []).story.map
        hasActiveStep) = some true :=
  ⟨by decide, (C3_numeric_step_clamped_and_displayed "7" 7 (by decide)).1,
   (C3_numeric_step_clamped_and_displayed "7" 7 (by decide)).2⟩

/-- One DOM/timing action of progress.js's `runProgress`, in program order.
`animate` records an `animateFill(fill, target, duration)` call (awaited to
completion before the next action), `sleep` an awaited `sleep(ms)`. -/
inductive Act
  | clearList
  | appendItem
  | sleep (ms : ℚ)
  | visible
  | animate (target : ℚ) (duration : ℚ)
  | statusPct (p : ℚ)
  | statusFailed
  | statusFailClass
  | fillErrStyle
  | statusDoneTick
  deriving DecidableEq, Repr

/-- progress.js `STEPS` entry: label, colour tag, duration, optional failure
percentage (absent on all but the last step of the default configuration). -/
structure PStep where
  label : String
  colour : String
  duration : ℚ
  failAt : Option ℚ
  deriving DecidableEq, Repr

/-- The normal-completion branch of the loop body (progress.js lines 94-101). -/
def normalActs (duration : ℚ) : List Act :=
  [.animate 100 duration, .statusDoneTick, .sleep 400]

/-- One iteration of the `for` loop of `runProgress` (progress.js lines
64-102): insert, pause, fade in, pause, then either the scripted failure
sub-sequence (`if (step.failAt)`, a JS truthiness test, so a failure point of
0 is falsy) or normal completion. -/
def stepActs (st : PStep) : List Act :=
  [.appendItem, .sleep 300, .visible, .sleep 200] ++
    (match st.failAt with
     | some p =>
         if p = 0 then normalActs st.duration
         else
           [.animate p (st.duration * (p / 100)), .statusPct p, .sleep 800,
            .animate (p + 1) 400, .statusPct (p + 1), .sleep 600,
            .animate (p - 2) 200, .statusFailed, .statusFailClass,
            .fillErrStyle, .sleep 1200]
     | none => normalActs st.duration)

/-- Actions of the loop iterations for the steps of a list, each action tagged
with its owning step's (1-based) tag; `k` is the tag of the first listed
step. -/
def tracedFrom (k : Nat) : List PStep → List (Nat × Act)
  | [] => []
  | st :: rest => (stepActs st).map (fun a => (k, a)) ++ tracedFrom (k + 1) rest

/-- progress.js `runProgress`: clear the list (tag 0), run every step's
iteration in order (step `i` tagged `i + 1`), then the final
`await sleep(600)` (tagged `length + 1`).  The await chain makes the whole
trace strictly sequential: this list IS the execution order. -/
def runProgress (steps : List PStep) : List (Nat × Act) :=
  (0, .clearList) :: (tracedFrom 1 steps ++ [(steps.length + 1, .sleep 600)])

/-- progress.js `STEPS`, the default configuration. -/
def STEPS : List PStep :=
  [⟨"Authenticating", "lavender", 2200, none⟩,
   ⟨"Locating gift", "pink", 2800, none⟩,
   ⟨"Cross-referencing list of gift ideas", "mint", 2000, none⟩,
   ⟨"Verifying recipient", "coral", 1800, none⟩,
   ⟨"Finalising", "gold", 3000, some 87⟩]

lemma tracedFrom_fst_bounds (steps : List PStep) (k : Nat) :
    ∀ e ∈ tracedFrom k steps, k ≤ e.1 ∧ e.1 < k + steps.length := by
  induction steps generalizing k with
  | nil => intro e he; exact absurd he (List.not_mem_nil e)
  | cons st rest ih =>
      intro e he
      rw [tracedFrom, List.mem_append] at he
      rcases he with hb | hr
      · obtain ⟨a, _, rfl⟩ := List.mem_map.mp hb
        simp only [List.length_cons]
        omega
      · have := ih (k + 1) e hr
        simp only [List.length_cons]
        omega

lemma tracedFrom_pairwise (steps : List PStep) (k : Nat) :
    List.Pairwise (fun a b => a.1 ≤ b.1) (tracedFrom k steps) := by
  induction steps generalizing k with
  | nil => exact List.Pairwise.nil
  | cons st rest ih =>
      rw [tracedFrom, List.pairwise_append]
      refine ⟨?_, ih (k + 1), ?_⟩
      · apply List.pairwise_of_forall_mem_list
        intro a ha b hb
        obtain ⟨x, _, rfl⟩ := List.mem_map.mp ha
        obtain ⟨y, _, rfl⟩ := List.mem_map.mp hb
        exact le_refl k
      · intro a ha b hb
        obtain ⟨x, _, rfl⟩ := List.mem_map.mp ha
        have := tracedFrom_fst_bounds rest (k + 1) b hb
        omega

lemma filter_fst_map_same (k m : Nat) (l : List Act) (h : (k == m) = true) :
    (l.map (fun a => (k, a))).filter (fun e => e.1 == m) = l.map (fun a => (k, a)) := by
  induction l with
  | nil => rfl
  | cons a l ih => simp only [List.map_cons, List.filter_cons, h, if_true, ih]

lemma filter_fst_map_other (k m : Nat) (l : List Act) (h : (k == m) = false) :
    (l.map (fun a => (k, a))).filter (fun e => e.1 == m) = [] := by
  induction l with
  | nil => rfl
  | cons a l ih => simp only [List.map_cons, List.filter_cons, h, Bool.false_eq_true,
      if_false, ih]

lemma tracedFrom_filter (steps : List PStep) (k i : Nat) (st : PStep)
    (h : steps.get? i = some st) :
    (tracedFrom k steps).filter (fun e => e.1 == k + i)
      = (stepActs st).map (fun a => (k + i, a)) := by
  induction steps generalizing k i with
  | nil => exact absurd h (by simp)
  | cons hd tl ih =>
      cases i with
      | zero =>
          have hst : hd = st := by
            simpa using h
          subst hst
          rw [tracedFrom, List.filter_append]
          rw [filter_fst_map_same k (k + 0) _ (by simp)]
          have hnil : (tracedFrom (k + 1) tl).filter (fun e => e.1 == k + 0) = [] := by
            rw [List.filter_eq_nil]
            intro e he
            have := tracedFrom_fst_bounds tl (k + 1) e he
            simp only [beq_iff_eq]
            omega
          rw [hnil, List.append_nil]
          simp
      | succ i =>
          have h' : tl.get? i = some st := by
            simpa using h
          rw [tracedFrom, List.filter_append]
          rw [filter_fst_map_other k (k + (i + 1)) _ (by simp)]
          have := ih (k + 1) i h'
          rw [List.nil_append]
          have harith : k + (i + 1) = (k + 1) + i := by omega
          rw [harith]
          exact this

/-- Claim C6: the actions of `runProgress` are strictly in step order (every
action of step N precedes every action of step N+1 — the awaited chain allows
no overlap), and a step with a nonzero (truthy) failure point `p` performs
exactly the scripted sub-sequence: animate to `p`% over the proportional
fraction `duration * (p/100)`, pause 800ms, animate to `p+1`% over 400ms
(stutter), pause 600ms, animate down to `p-2`% over 200ms (regression), mark
FAILED with the error fill style, and pause 1200ms before resolving. -/
theorem C6_progress_sequential_and_failure_script (steps : List PStep) :
    List.Pairwise (fun a b => a.1 ≤ b.1) (runProgress steps) ∧
    ∀ (i : Nat) (st : PStep) (p : ℚ), steps.get? i = some st →
      st.failAt = some p → ¬ p = 0 →
      ((runProgress steps).filter (fun e => e.1 == i + 1)).map Prod.snd
        = [.appendItem, .sleep 300, .visible, .sleep 200,
           .animate p (st.duration * (p / 100)), .statusPct p, .sleep 800,
           .animate (p + 1) 400, .statusPct (p + 1), .sleep 600,
           .animate (p - 2) 200, .statusFailed, .statusFailClass,
           .fillErrStyle, .sleep 1200] := by
  constructor
  · rw [runProgress, List.pairwise_cons]
    constructor
    · intro e he
      simp only [Nat.zero_le]
    · rw [List.pairwise_append]
      refine ⟨tracedFrom_pairwise steps 1, List.pairwise_singleton _ _, ?_⟩
      intro a ha b hb
      have hbound := tracedFrom_fst_bounds steps 1 a ha
      have hb' : b = (steps.length + 1, Act.sleep 600) := by simpa using hb
      rw [hb']
      omega
  · intro i st p hget hfail hp
    have hi : i < steps.length := by
      by_contra hge
      rw [List.get?_eq_none.mpr (by omega)] at hget
      exact Option.noConfusion hget
    rw [runProgress, List.filter_cons]
    have h0 : ((0, Act.clearList).1 == i + 1) = false := by
      simp
    rw [h0]
    simp only [Bool.false_eq_true, if_false]
    rw [List.filter_append]
    have hlast : ([((steps.length + 1 : Nat), Act.sleep 600)]).filter
        (fun e => e.1 == i + 1) = [] := by
      rw [List.filter_eq_nil]
      intro e he
      have he' : e = (steps.length + 1, Act.sleep 600) := by simpa using he
      rw [he']
      simp only [beq_iff_eq]
      omega
    rw [hlast, List.append_nil]
    have hfilter := tracedFrom_filter steps 1 i st hget
    have harith : 1 + i = i + 1 := by omega
    rw [harith] at hfilter
    rw [hfilter, List.map_map]
    have hacts : stepActs st
        = [.appendItem, .sleep 300, .visible, .sleep 200,
           .animate p (st.duration * (p / 100)), .statusPct p, .sleep 800,
           .animate (p + 1) 400, .statusPct (p + 1), .sleep 600,
           .animate (p - 2) 200, .statusFailed, .statusFailClass,
           .fillErrStyle, .sleep 1200] := by
      rw [stepActs, hfail]
      simp only [hp, if_false]
      rfl
    rw [hacts]
    rfl

theorem C6_progress_sequential_and_failure_script_witness :
    STEPS.get? 4 = some ⟨"Finalising", "gold", 3000, some 87⟩ ∧
    ((runProgress STEPS).filter (fun e => e.1 == 5)).map Prod.snd
      = [.appendItem, .sleep 300, .visible, .sleep 200,
         .animate 87 (3000 * (87 / 100)), .statusPct 87, .sleep 800,
         .animate (87 + 1) 400, .statusPct (87 + 1), .sleep 600,
         .animate (87 - 2) 200, .statusFailed, .statusFailClass,
         .fillErrStyle, .sleep 1200] :=
  ⟨rfl, (C6_progress_sequential_and_failure_script STEPS).2 4
      ⟨"Finalising", "gold", 3000, some 87⟩ 87 rfl rfl (by norm_num)⟩

/-- The ease-in-out quadratic of progress.js lines 38-40, as a function of the
clamped normalised time. -/
def easedOf (progress : ℚ) : ℚ :=
  if progress < 1 / 2 then 2 * progress * progress
  else 1 - (-2 * progress + 2)^2 / 2

/-- The width written by one frame callback at elapsed time `t`
(progress.js line 41): `startWidth + delta * eased(min(t/duration, 1))`. -/
def frameWidth (startW delta duration t : ℚ) : ℚ :=
  startW + delta * easedOf (min (t / duration) 1)

/-- The frame loop of `animateFill`: at each elapsed frame time, write the
eased width; schedule another frame while `progress < 1`, otherwise call
`resolve` and stop.  Returns the last written width and the number of
`resolve` calls. -/
def frameLoop (startW delta duration : ℚ) (w : ℚ) : List ℚ → ℚ × Nat
  | [] => (w, 0)
  | t :: ts =>
      if min (t / duration) 1 < 1 then
        frameLoop startW delta duration (frameWidth startW delta duration t) ts
      else (frameWidth startW delta duration t, 1)

/-- progress.js `animateFill(fill, target, duration)` run over a list of
elapsed frame times: `startWidth = parseFloat(fill.style.width) || 0` (the
indicator's value when the call begins, `none` when unset/NaN), and
`delta = target - startWidth` fixed for the whole animation. -/
def animateFill (w0 : Option ℚ) (target duration : ℚ) (frames : List ℚ) : ℚ × Nat :=
  let startWidth := match w0 with | none => 0 | some x => x
  frameLoop startWidth (target - startWidth) duration startWidth frames

/-- The start value actually used: `parseFloat(...) || 0`. -/
def startOf (w0 : Option ℚ) : ℚ :=
  match w0 with | none => 0 | some x => x

lemma easedOf_one : easedOf 1 = 1 := by
  rw [easedOf]
  norm_num

lemma frameLoop_resolved_iff (s d duration : ℚ) (hdur : 0 < duration) :
    ∀ (ts : List ℚ) (w : ℚ),
      (frameLoop s d duration w ts).2 = 1 ↔ ∃ t ∈ ts, duration ≤ t := by
  intro ts
  induction ts with
  | nil => intro w; simp [frameLoop]
  | cons t ts ih =>
      intro w
      rw [frameLoop]
      by_cases hc : min (t / duration) 1 < 1
      · have ht : ¬ duration ≤ t := by
          have h1 : t / duration < 1 := by
            rcases min_cases (t / duration) 1 with ⟨he, _⟩ | ⟨he, hle⟩
            · rw [he] at hc; exact hc
            · rw [he] at hc; exact absurd hc (lt_irrefl 1)
          exact not_le.mpr ((div_lt_one hdur).mp h1)
        rw [if_pos hc, ih]
        simp only [List.mem_cons]
        constructor
        · rintro ⟨x, hx, hdx⟩
          exact ⟨x, Or.inr hx, hdx⟩
        · rintro ⟨x, hx | hx, hdx⟩
          · rw [hx] at hdx; exact absurd hdx ht
          · exact ⟨x, hx, hdx⟩
      · rw [if_neg hc]
        have h1 : (1 : ℚ) ≤ t / duration := by
          calc (1 : ℚ) ≤ min (t / duration) 1 := not_lt.mp hc
            _ ≤ t / duration := min_le_left _ _
        have hd : duration ≤ t := (one_le_div hdur).mp h1
        constructor
        · intro _
          exact ⟨t, List.mem_cons_self t ts, hd⟩
        · intro _
          rfl

lemma frameLoop_resolved_final (s d duration : ℚ) (hdur : 0 < duration) :
    ∀ (ts : List ℚ) (w : ℚ), (frameLoop s d duration w ts).2 = 1 →
      (frameLoop s d duration w ts).1 = s + d := by
  intro ts
  induction ts with
  | nil => intro w h; exact absurd h (by simp [frameLoop])
  | cons t ts ih =>
      intro w h
      rw [frameLoop] at h ⊢
      by_cases hc : min (t / duration) 1 < 1
      · rw [if_pos hc] at h ⊢
        exact ih _ h
      · rw [if_neg hc]
        have hmin : min (t / duration) 1 = 1 :=
          le_antisymm (min_le_right _ _) (not_lt.mp hc)
        show frameWidth s d duration t = s + d
        rw [frameWidth, hmin, easedOf_one, mul_one]

/-- Claim C7: for every `animateFill` call, each frame at elapsed time
`t ≤ duration` writes exactly `start + (target - start) * eased(t/duration)`
with the ease-in-out quadratic `2u²` below one half and `1 - ((-2u+2)²)/2`
above, where `start` is the indicator's value when the call begins; the
promise resolves exactly once the normalised time reaches 1 (a frame with
`t ≥ duration` arrives), and the value then equals exactly the target. -/
theorem C7_animate_eased_and_resolves_at_target (w0 : Option ℚ)
    (target duration : ℚ) (ts : List ℚ) (hdur : 0 < duration) :
    (∀ t, 0 ≤ t → t ≤ duration →
      frameWidth (startOf w0) (target - startOf w0) duration t
        = startOf w0 + (target - startOf w0) *
            (if t / duration < 1 / 2 then 2 * (t / duration) * (t / duration)
             else 1 - (-2 * (t / duration) + 2)^2 / 2)) ∧
    ((animateFill w0 target duration ts).2 = 1 ↔ ∃ t ∈ ts, duration ≤ t) ∧
    ((animateFill w0 target duration ts).2 = 1 →
      (animateFill w0 target duration ts).1 = target) := by
  refine ⟨?_, ?_, ?_⟩
  · intro t _ hle
    have hmin : min (t / duration) 1 = t / duration :=
      min_eq_left ((div_le_one hdur).mpr hle)
    rw [frameWidth, hmin, easedOf]
  · exact frameLoop_resolved_iff (startOf w0) (target - startOf w0) duration hdur ts
      (startOf w0)
  · intro h
    have := frameLoop_resolved_final (startOf w0) (target - startOf w0) duration hdur ts
      (startOf w0) h
    rw [show (animateFill w0 target duration ts).1
        = (frameLoop (startOf w0) (target - startOf w0) duration (startOf w0) ts).1
        from rfl, this]
    ring

theorem C7_animate_eased_and_resolves_at_target_witness :
    frameWidth (startOf none) (100 - startOf none) 2000 1000
      = startOf none + (100 - startOf none) *
          (if (1000 : ℚ) / 2000 < 1 / 2 then 2 * (1000 / 2000) * (1000 / 2000)
           else 1 - (-2 * ((1000 : ℚ) / 2000) + 2)^2 / 2) ∧
    (animateFill none 100 2000 [1000, 2500]).2 = 1 ∧
    (animateFill none 100 2000 [1000, 2500]).1 = 100 :=
  ⟨(C7_animate_eased_and_resolves_at_target none 100 2000 [1000, 2500]
      (by norm_num)).1 1000 (by norm_num) (by norm_num),
   (C7_animate_eased_and_resolves_at_target none 100 2000 [1000, 2500]
      (by norm_num)).2.1.mpr ⟨2500, by simp, by norm_num⟩,
   (C7_animate_eased_and_resolves_at_target none 100 2000 [1000, 2500]
      (by norm_num)).2.2 ((C7_animate_eased_and_resolves_at_target none 100 2000
        [1000, 2500] (by norm_num)).2.1.mpr ⟨2500, by simp, by norm_num⟩)⟩
